import Mathlib

/-!
Verification of the Ad Metrics Ingestion & Normalization Pipeline of the
ga4-analytics-tool repository. The definitions below shallowly embed the
sheet-parsing, value-normalization and metrics-aggregation functions of
src/pages/3_📢_Google_Ads_Analyzer.py (and the alias table of
src/pages/4_📊_GA4_+_Ads_Analyzer.py). Numbers are modelled as rationals;
a pandas DataFrame is modelled as a list of rows together with one
presence flag per optional numeric column, since pandas column presence is
table-wide. Python's str.strip(), str.lower() and string comparison are
modelled directly on character lists so that every definition evaluates
inside the kernel.
-/

/-- The whitespace characters str.strip() removes (ASCII range). -/
def pyWhitespace (c : Char) : Bool :=
  c == ' ' || c == '\t' || c == '\n' || c == '\r' || c.toNat == 11 || c.toNat == 12

/-- Python str.strip() on a character list. -/
def pyStrip (cs : List Char) : List Char :=
  ((cs.dropWhile pyWhitespace).reverse.dropWhile pyWhitespace).reverse

/-- Python str.strip() as a String transformer. -/
def strip (s : String) : String := String.mk (pyStrip s.toList)

/-- Python str.lower() (ASCII case folding, which covers every label the
pages compare). -/
def lower (s : String) : String := String.mk (s.toList.map Char.toLower)

/-- Code-point lexicographic comparison, the order Python and pandas use on
strings. -/
def charListLt : List Char → List Char → Bool
  | [], [] => false
  | [], _ :: _ => true
  | _ :: _, [] => false
  | a :: as, b :: bs =>
    if a.toNat < b.toNat then true
    else if b.toNat < a.toNat then false
    else charListLt as bs

/-- Python string comparison s < t. -/
def strLt (a b : String) : Bool := charListLt a.toList b.toList

/-- A raw cell value reaching smart_to_float: already numeric (the
isinstance(x, (int, float)) branch) or a string. -/
inductive Cell where
  | num (q : ℚ)
  | str (s : String)
deriving DecidableEq

/-- Value of a digit string, most significant digit first. -/
def digitsVal (cs : List Char) : ℕ :=
  cs.foldl (fun acc c => 10 * acc + (c.toNat - '0'.toNat)) 0

/-- Python float() restricted to the alphabet {digits, period, minus} that
survives smart_to_float's cleaning and separator fixing: an optional leading
minus, at most one period, at least one digit and nothing else; the value is
intPart + fracPart / 10 ^ (number of fraction digits). Anything else (for
example an empty string, a bare minus or period, a minus in the middle, or
two periods) makes Python float() raise, modelled as none. -/
def parsePyFloat (cs : List Char) : Option ℚ :=
  let neg : Bool := cs.head? == some '-'
  let body := if neg then cs.drop 1 else cs
  if body.all (fun c => c.isDigit || c == '.')
      && body.any Char.isDigit
      && decide ((body.filter (fun c => c == '.')).length ≤ 1) then
    let intPart := body.takeWhile (fun c => c != '.')
    let fracPart := (body.dropWhile (fun c => c != '.')).drop 1
    some (mkRat ((if neg then -1 else 1) *
      (digitsVal intPart * 10 ^ fracPart.length + digitsVal fracPart : ℤ))
      (10 ^ fracPart.length))
  else none

/-- The character class [0-9,.-] kept by re.sub(r'[^0-9,.-]', '', s) in
smart_to_float (line 234). -/
def keptChar (c : Char) : Bool := c.isDigit || c == ',' || c == '.' || c == '-'

/-- True iff the last comma occurs after the last period: this is
s.rfind(',') > s.rfind('.') when both separators occur in s. -/
def commaAfterDot (cs : List Char) : Bool :=
  match cs.reverse.find? (fun c => c == ',' || c == '.') with
  | some c => c == ','
  | none => false

/-- The comma/period disambiguation of smart_to_float (lines 235-242) applied
to the cleaned character list: with both separators present the later one is
the decimal mark; with only commas present the comma becomes the decimal
point. -/
def commaPeriodFix (cs : List Char) : List Char :=
  if cs.contains ',' && cs.contains '.' then
    if commaAfterDot cs then
      (cs.filter (fun c => c != '.')).map (fun c => if c = ',' then '.' else c)
    else cs.filter (fun c => c != ',')
  else if cs.contains ',' then cs.map (fun c => if c = ',' then '.' else c)
  else cs

/-- smart_to_float on a string argument (lines 231-246): strip, empty gives 0,
clean to [0-9,.-], fix separators, parse as float, and a parse failure gives
0. -/
def smartToFloatStr (x : String) : ℚ :=
  let s := pyStrip x.toList
  if s = [] then 0
  else
    match parsePyFloat (commaPeriodFix (s.filter keptChar)) with
    | some q => q
    | none => 0

/-- smart_to_float (src/pages/3, lines 228-246): numeric values pass through
as floats, everything else goes through the string normalization. -/
def smart_to_float : Cell → ℚ
  | Cell.num q => q
  | Cell.str s => smartToFloatStr s

/-- A candidate header row test (line 116): at least 2 non-empty cells after
stripping, and the non-empty cells pairwise distinct after strip().lower()
(the Python code compares len(set(...)) with the cell count). -/
def isHeaderRow (row : List String) : Bool :=
  let nonEmpty := row.filter (fun c => strip c != "")
  decide (2 ≤ nonEmpty.length) &&
    ((nonEmpty.map (fun c => lower (strip c))).dedup.length == nonEmpty.length)

/-- The header search loop (lines 113-118) on a prefix of the table:
index of the first row passing isHeaderRow, none when no row passes. -/
def findHeaderIdxAux : List (List String) → Option ℕ
  | [] => none
  | r :: rs => if isHeaderRow r then some 0 else (findHeaderIdxAux rs).map (· + 1)

/-- The selected header row index: the loop runs over values[:10] and the
index stays 0 when no candidate is accepted. -/
def findHeaderIdx (values : List (List String)) : ℕ :=
  (findHeaderIdxAux (values.take 10)).getD 0

/-- The alias table of src/pages/3 (lines 123-141). -/
def alias_map3 : List (String × String) :=
  [("date", "date"), ("ngày", "date"), ("day", "date"), ("campaign", "campaign"),
   ("impr.", "impressions"), ("impr", "impressions"), ("impressions", "impressions"),
   ("clicks", "clicks"), ("cost", "cost"), ("spend", "cost"),
   ("conversions", "conversions"), ("conv. value", "conversion_value"),
   ("conversion value", "conversion_value"), ("value", "conversion_value"),
   ("ctr", "ctr"), ("avg. cpc", "avg_cpc"), ("cpc", "avg_cpc")]

/-- The alias table of src/pages/4 (lines 97-114): the same entries except
that it has no ("day", "date") entry. -/
def alias_map4 : List (String × String) :=
  [("date", "date"), ("ngày", "date"), ("campaign", "campaign"),
   ("impr.", "impressions"), ("impr", "impressions"), ("impressions", "impressions"),
   ("clicks", "clicks"), ("cost", "cost"), ("spend", "cost"),
   ("conversions", "conversions"), ("conv. value", "conversion_value"),
   ("conversion value", "conversion_value"), ("value", "conversion_value"),
   ("ctr", "ctr"), ("avg. cpc", "avg_cpc"), ("cpc", "avg_cpc")]

/-- The dictionary lookup alias_map.get(key, key) of pages/3 on an already
stripped and lower-cased key. -/
def aliasLookup3 (key : String) : String := (alias_map3.lookup key).getD key

/-- The dictionary lookup alias_map.get(key, key) of pages/4 on an already
stripped and lower-cased key. -/
def aliasLookup4 (key : String) : String := (alias_map4.lookup key).getD key

/-- normalize_header of pages/3 (lines 143-145). -/
def normalize_header (h : String) : String := aliasLookup3 (lower (strip h))

/-- Header list construction (line 147): an empty header cell becomes
col_{idx+1}, every other cell goes through normalize_header. -/
def makeHeaders (raw : List String) : List String :=
  raw.mapIdx (fun idx h =>
    if strip h != "" then normalize_header h else "col_" ++ toString (idx + 1))

/-- First-occurrence deduplication with an accumulator of already seen
keys (structural recursion so the kernel can evaluate it). -/
def firstDedupAux : List String → List String → List String
  | _, [] => []
  | seen, k :: t =>
    if k ∈ seen then firstDedupAux seen t
    else k :: firstDedupAux (k :: seen) t

/-- First-occurrence deduplication, the key order of a Python dict. -/
def firstDedup (l : List String) : List String := firstDedupAux [] l

/-- The value a Python dict built from these key/value pairs holds at k:
the last binding wins. -/
def lastVal (ps : List (String × String)) (k : String) : String :=
  ps.foldl (fun acc p => if p.1 == k then p.2 else acc) ""

/-- A Python dict built from key/value pairs in order: keys in
first-occurrence order, each holding the last value assigned to it. -/
def pyDict (ps : List (String × String)) : List (String × String) :=
  (firstDedup (ps.map Prod.fst)).map (fun k => (k, lastVal ps k))

/-- True iff the data row is entirely blank after stripping (line 152). -/
def blankRow (row : List String) : Bool := row.all (fun c => strip c == "")

/-- One record from a data row (lines 154-155): right-pad the row with empty
strings to the header length, then build the dict headers[i] to padded[i]
(zip truncates a longer row at the header length). -/
def mkRecord (headers : List String) (row : List String) : List (String × String) :=
  pyDict (headers.zip (row ++ List.replicate (headers.length - row.length) ""))

/-- The record-construction loop of connect_google_sheets (lines 149-158):
blank rows are skipped, every other row after the header becomes one record
in order. -/
def buildRecords (headers : List String) (rows : List (List String)) :
    List (List (String × String)) :=
  (rows.filter (fun r => !(blankRow r))).map (mkRecord headers)

/-- The parsing phase of connect_google_sheets (lines 107-158), from the
fetched cell matrix to the list of records. -/
def sheetRecords (values : List (List String)) : List (List (String × String)) :=
  if values.isEmpty then []
  else
    let idx := findHeaderIdx values
    let headers := makeHeaders (values.getD idx [])
    buildRecords headers (values.drop (idx + 1))

/-- One row of the normalized ads table: the grouping key and the numeric
columns the analyzer reads. -/
structure AdsRow where
  campaign : String
  impressions : ℚ
  clicks : ℚ
  cost : ℚ
  conversions : ℚ
  conversion_value : ℚ
  avg_cpc : ℚ
deriving DecidableEq

/-- The ads DataFrame: rows plus one presence flag per numeric column,
because pandas column presence is table-wide. A row's numeric field is
meaningful only when its column's flag is set. -/
structure AdsDF where
  rows : List AdsRow
  hasImpressions : Bool
  hasClicks : Bool
  hasCost : Bool
  hasConversions : Bool
  hasConversionValue : Bool
  hasAvgCpc : Bool
deriving DecidableEq

/-- df[col].sum() if col in df.columns else 0. -/
def colSum (df : AdsDF) (present : Bool) (f : AdsRow → ℚ) : ℚ :=
  if present then (df.rows.map f).sum else 0

/-- The ten aggregate figures analyze_ads_performance returns. -/
structure MetricsSummary where
  total_impressions : ℚ
  total_clicks : ℚ
  total_cost : ℚ
  total_conversions : ℚ
  total_conversion_value : ℚ
  ctr : ℚ
  cpc : ℚ
  cpm : ℚ
  conversion_rate : ℚ
  roas : ℚ
deriving DecidableEq

/-- analyze_ads_performance (lines 368-398): the empty dict returned for an
empty frame is modelled as none; otherwise the totals are column sums (0 for
an absent column) and every ratio is guarded by a positivity test on its
denominator. -/
def analyze_ads_performance (df : AdsDF) : Option MetricsSummary :=
  if df.rows.isEmpty then none
  else
    let ti := colSum df df.hasImpressions (·.impressions)
    let tc := colSum df df.hasClicks (·.clicks)
    let tco := colSum df df.hasCost (·.cost)
    let tcv := colSum df df.hasConversions (·.conversions)
    let tv := colSum df df.hasConversionValue (·.conversion_value)
    some
      { total_impressions := ti
        total_clicks := tc
        total_cost := tco
        total_conversions := tcv
        total_conversion_value := tv
        ctr := if 0 < ti then tc / ti * 100 else 0
        cpc := if 0 < tc then tco / tc else 0
        cpm := if 0 < ti then tco / ti * 1000 else 0
        conversion_rate := if 0 < tc then tcv / tc * 100 else 0
        roas := if 0 < tco then tv / tco else 0 }

/-- Maximum of the cost column, as pandas Series.max over a non-empty
column. -/
def maxCost (df : AdsDF) : ℚ :=
  match df.rows.map (·.cost) with
  | [] => 0
  | c :: cs => cs.foldl max c

/-- Mean of the avg_cpc column when the column is present; the Python code
uses 0 when the column is absent (line 639). -/
def meanCpc (df : AdsDF) : ℚ :=
  if df.hasAvgCpc then (df.rows.map (·.avg_cpc)).sum / (df.rows.length : ℚ) else 0

/-- The thousands-of-VND detection test (line 641):
max cost < 10000 and (mean CPC == 0 or mean CPC < 50). On an empty frame the
pandas max is NaN and the comparison is false, modelled by the isEmpty
guard. -/
def vndScaleCond (df : AdsDF) : Bool :=
  if df.rows.isEmpty then false
  else
    decide (maxCost df < 10000) &&
      (decide (meanCpc df = 0) || decide (meanCpc df < 50))

/-- The VND unit-scale heuristic (lines 636-648): with display currency VND,
a cost column present and the explicit thousands flag not set, multiply the
cost and conversion_value columns by 1000 when vndScaleCond holds; avg_cpc
is never touched. -/
def applyVndHeuristic (currency : String) (thousandsFlag : Bool) (df : AdsDF) : AdsDF :=
  if currency == "VND" && df.hasCost && !thousandsFlag then
    if vndScaleCond df then
      { df with
        rows := df.rows.map (fun r =>
          { r with
            cost := r.cost * 1000
            conversion_value :=
              if df.hasConversionValue then r.conversion_value * 1000
              else r.conversion_value }) }
    else df
  else df

/-- One output row of safe_group_sum: the group key and the five summed
columns. -/
structure GroupRow where
  campaign : String
  impressions : ℚ
  clicks : ℚ
  cost : ℚ
  conversions : ℚ
  conversion_value : ℚ
deriving DecidableEq

/-- True iff at least one of the five expected numeric columns is present
(the present list of safe_group_sum is non-empty). -/
def hasAnyNumeric (df : AdsDF) : Bool :=
  df.hasImpressions || df.hasClicks || df.hasCost || df.hasConversions ||
    df.hasConversionValue

/-- The rows of one group: df[df[by_col] == k]. -/
def fiber (df : AdsDF) (k : String) : List AdsRow :=
  df.rows.filter (fun r => r.campaign == k)

/-- The summed totals of one group: present columns are summed, missing
columns are filled with 0 (lines 417-421). -/
def groupTotals (df : AdsDF) (k : String) : GroupRow :=
  { campaign := k
    impressions :=
      if df.hasImpressions then ((fiber df k).map (·.impressions)).sum else 0
    clicks := if df.hasClicks then ((fiber df k).map (·.clicks)).sum else 0
    cost := if df.hasCost then ((fiber df k).map (·.cost)).sum else 0
    conversions :=
      if df.hasConversions then ((fiber df k).map (·.conversions)).sum else 0
    conversion_value :=
      if df.hasConversionValue then ((fiber df k).map (·.conversion_value)).sum
      else 0 }

/-- Insertion step of an ascending sort under Python string comparison. -/
def insertStr (x : String) : List String → List String
  | [] => [x]
  | h :: t => if strLt x h then x :: h :: t else h :: insertStr x t

/-- Ascending sort of group keys, the order pandas groupby(sort=True) emits
its groups in. -/
def sortStrAsc : List String → List String
  | [] => []
  | x :: t => insertStr x (sortStrAsc t)

/-- safe_group_sum (lines 400-422) with by_col = campaign, which is always
present in this model so the missing-by_col branch (lines 406-409) is
unreachable. With no numeric column present the code takes
drop_duplicates, keeping first-occurrence order with zero totals; otherwise
pandas groupby sums the present columns, emitting groups sorted ascending by
key, and the missing columns are filled with 0. -/
def safe_group_sum (df : AdsDF) : List GroupRow :=
  if hasAnyNumeric df then
    (sortStrAsc (firstDedup (df.rows.map (·.campaign)))).map (groupTotals df)
  else
    (firstDedup (df.rows.map (·.campaign))).map
      (fun k => { campaign := k, impressions := 0, clicks := 0, cost := 0,
                  conversions := 0, conversion_value := 0 })

/-- Insertion step of the stable descending sort by the cost column: a new
row goes before the first strictly smaller cost, and after every
earlier-listed row of equal cost, which is pandas nlargest keep='first'. -/
def insertDescCost (x : GroupRow) : List GroupRow → List GroupRow
  | [] => [x]
  | h :: t => if h.cost ≤ x.cost then x :: h :: t else h :: insertDescCost x t

/-- Stable descending sort of group rows by cost. -/
def sortDescCost : List GroupRow → List GroupRow
  | [] => []
  | x :: t => insertDescCost x (sortDescCost t)

/-- campaign_stats.nlargest(n, 'cost') (line 905): the first n rows of the
stable descending sort of the grouped table by cost. -/
def topCampaigns (n : ℕ) (df : AdsDF) : List GroupRow :=
  (sortDescCost (safe_group_sum df)).take n

/-- C1: the claim lists smart_to_float "1,234.56" = 1234.56,
"1.234,56" = 1234.56, "1234" = 1234.0, "$1,234" = 1234.0, "12%" = 12.0.
It fails at "$1,234": the cleaned string "1,234" has a comma and no period,
so the code turns the comma into a decimal point and parses 1.234 = 617/500,
not 1234. -/
theorem C1_counterexample :
    smart_to_float (Cell.str "$1,234") = 617 / 500 ∧ (617 / 500 : ℚ) ≠ 1234 := by
  constructor
  · have h : smart_to_float (Cell.str "$1,234") = mkRat 1234 1000 := by decide
    rw [h]; norm_num [mkRat, Rat.normalize]
  · norm_num

/-- C1 amended: the five example strings normalize to 1234.56, 1234.56,
1234, 1.234 and 12 respectively; only the "$1,234" row of the claimed table
changes, to 1.234, because comma-only strings are read with a decimal
comma. -/
theorem C1_amended :
    smart_to_float (Cell.str "1,234.56") = 1234.56 ∧
    smart_to_float (Cell.str "1.234,56") = 1234.56 ∧
    smart_to_float (Cell.str "1234") = 1234 ∧
    smart_to_float (Cell.str "$1,234") = 1.234 ∧
    smart_to_float (Cell.str "12%") = 12 := by
  refine ⟨?_, ?_, ?_, ?_, ?_⟩
  · have h : smart_to_float (Cell.str "1,234.56") = mkRat 123456 100 := by decide
    rw [h]; norm_num [mkRat, Rat.normalize]
  · have h : smart_to_float (Cell.str "1.234,56") = mkRat 123456 100 := by decide
    rw [h]; norm_num [mkRat, Rat.normalize]
  · have h : smart_to_float (Cell.str "1234") = mkRat 1234 1 := by decide
    rw [h]; norm_num [mkRat, Rat.normalize]
  · have h : smart_to_float (Cell.str "$1,234") = mkRat 1234 1000 := by decide
    rw [h]; norm_num [mkRat, Rat.normalize]
  · have h : smart_to_float (Cell.str "12%") = mkRat 12 1 := by decide
    rw [h]; norm_num [mkRat, Rat.normalize]

/-- C8: value normalization is total (smart_to_float is a function into ℚ by
construction, so it never raises), and every cell that strips to the empty
string or whose cleaned text Python float() cannot parse yields exactly 0. -/
theorem C8_total_and_zero (s : String)
    (h : pyStrip s.toList = [] ∨
      parsePyFloat (commaPeriodFix ((pyStrip s.toList).filter keptChar)) = none) :
    smart_to_float (Cell.str s) = 0 := by
  show smartToFloatStr s = 0
  unfold smartToFloatStr
  simp only [String.toList] at h
  rcases h with h | h
  · simp [h]
  · by_cases he : pyStrip s.data = []
    · simp [he]
    · simp [he, h]

/-- C8 witness: the empty string and a garbage string both normalize to 0. -/
theorem C8_witness :
    smart_to_float (Cell.str "") = 0 ∧ smart_to_float (Cell.str "total: n/a") = 0 :=
  ⟨C8_total_and_zero "" (Or.inl (by decide)),
   C8_total_and_zero "total: n/a" (Or.inr (by decide))⟩

/-- C9: on an empty input table analyze_ads_performance returns the empty
dict (modelled as none), not a MetricsSummary of zeros. -/
theorem C9_empty_input (df : AdsDF) (h : df.rows = []) :
    analyze_ads_performance df = none := by
  unfold analyze_ads_performance
  simp [h]

/-- C9 witness: the empty frame with no columns present. -/
theorem C9_witness :
    analyze_ads_performance
      { rows := [], hasImpressions := false, hasClicks := false, hasCost := false,
        hasConversions := false, hasConversionValue := false,
        hasAvgCpc := false } = none :=
  C9_empty_input _ rfl

/-- C10: the two alias lookups are not extensionally equal: on the label
"day" the Google Ads Analyzer page maps to "date" while the GA4 + Ads
Analyzer page, whose table has no "day" entry, passes "day" through. -/
theorem C10_counterexample :
    aliasLookup3 "day" = "date" ∧ aliasLookup4 "day" = "day" ∧
    ("date" : String) ≠ "day" := by
  refine ⟨by decide, by decide, by decide⟩

/-- C10 amended: the two alias lookups agree on every label except "day". -/
theorem C10_amended (key : String) (h : key ≠ "day") :
    aliasLookup3 key = aliasLookup4 key := by
  have hb : (key == "day") = false := beq_eq_false_iff_ne.mpr h
  unfold aliasLookup3 aliasLookup4 alias_map3 alias_map4
  simp only [List.lookup, hb]

/-- C10 witness: the two lookups agree at "spend". -/
theorem C10_witness : aliasLookup3 "spend" = aliasLookup4 "spend" :=
  C10_amended "spend" (by decide)

/-- Behavior of the header search loop on an arbitrary prefix: it returns
the index of the first row passing isHeaderRow, or none when no row
passes. -/
theorem findHeaderIdxAux_spec (l : List (List String)) :
    (∃ i, findHeaderIdxAux l = some i ∧ i < l.length ∧
      isHeaderRow (l.getD i []) = true ∧
      ∀ j, j < i → isHeaderRow (l.getD j []) = false) ∨
    (findHeaderIdxAux l = none ∧ ∀ row ∈ l, isHeaderRow row = false) := by
  induction l with
  | nil => exact Or.inr ⟨rfl, by simp⟩
  | cons r rs ih =>
    by_cases hr : isHeaderRow r = true
    · refine Or.inl ⟨0, ?_, ?_, ?_, ?_⟩
      · simp [findHeaderIdxAux, hr]
      · simp
      · simpa using hr
      · intro j hj; omega
    · rcases ih with ⟨i, hsome, hlt, hget, hprev⟩ | ⟨hnone, hall⟩
      · refine Or.inl ⟨i + 1, ?_, ?_, ?_, ?_⟩
        · simp [findHeaderIdxAux, hr, hsome]
        · simpa using hlt
        · simpa using hget
        · intro j hj
          cases j with
          | zero => simpa using hr
          | succ j =>
            have := hprev j (by omega)
            simpa using this
      · refine Or.inr ⟨?_, ?_⟩
        · simp [findHeaderIdxAux, hr, hnone]
        · intro row hrow
          rcases List.mem_cons.mp hrow with hcase | hcase
          · subst hcase; simpa using hr
          · exact hall row hcase

/-- C3: header reconciliation scans at most the first 10 rows in order from
index 0 and selects the first row passing the two-nonempty-distinct-cells
test isHeaderRow; when no row of the first 10 passes, it selects row 0. -/
theorem C3_header_selection (values : List (List String)) :
    (findHeaderIdx values < (values.take 10).length ∧
      isHeaderRow ((values.take 10).getD (findHeaderIdx values) []) = true ∧
      ∀ j, j < findHeaderIdx values →
        isHeaderRow ((values.take 10).getD j []) = false) ∨
    (findHeaderIdx values = 0 ∧ ∀ row ∈ values.take 10, isHeaderRow row = false) := by
  unfold findHeaderIdx
  rcases findHeaderIdxAux_spec (values.take 10) with
    ⟨i, hsome, hlt, hget, hprev⟩ | ⟨hnone, hall⟩
  · rw [hsome]
    exact Or.inl ⟨hlt, hget, hprev⟩
  · rw [hnone]
    exact Or.inr ⟨rfl, hall⟩

/-- C4: in every MetricsSummary the analyzer returns, a ratio is 0 whenever
its denominator is 0: zero impressions give ctr = 0 and cpm = 0, zero clicks
give cpc = 0 and conversion_rate = 0, zero cost gives roas = 0. The rational
model is total, so no division error, NaN or infinity can arise. -/
theorem C4_zero_denominators (df : AdsDF) (s : MetricsSummary)
    (h : analyze_ads_performance df = some s) :
    (s.total_impressions = 0 → s.ctr = 0 ∧ s.cpm = 0) ∧
    (s.total_clicks = 0 → s.cpc = 0 ∧ s.conversion_rate = 0) ∧
    (s.total_cost = 0 → s.roas = 0) := by
  unfold analyze_ads_performance at h
  by_cases he : df.rows.isEmpty
  · simp [he] at h
  · simp only [he, Bool.false_eq_true, if_false, Option.some.injEq] at h
    subst h
    refine ⟨fun h0 => ?_, fun h0 => ?_, fun h0 => ?_⟩ <;>
      dsimp only at h0 ⊢ <;> rw [h0] <;> simp

/-- A one-row frame with none of the numeric columns present. -/
def dfNoCols : AdsDF :=
  { rows := [{ campaign := "A", impressions := 1, clicks := 2, cost := 3,
               conversions := 4, conversion_value := 5, avg_cpc := 6 }],
    hasImpressions := false, hasClicks := false, hasCost := false,
    hasConversions := false, hasConversionValue := false, hasAvgCpc := false }

/-- The all-zero summary dfNoCols aggregates to. -/
def zeroSummary : MetricsSummary :=
  { total_impressions := 0, total_clicks := 0, total_cost := 0,
    total_conversions := 0, total_conversion_value := 0,
    ctr := 0, cpc := 0, cpm := 0, conversion_rate := 0, roas := 0 }

/-- C4 witness: the aggregation of dfNoCols has every total 0, and indeed
every ratio 0. -/
theorem C4_witness :
    (zeroSummary.total_impressions = 0 → zeroSummary.ctr = 0 ∧ zeroSummary.cpm = 0) ∧
    (zeroSummary.total_clicks = 0 →
      zeroSummary.cpc = 0 ∧ zeroSummary.conversion_rate = 0) ∧
    (zeroSummary.total_cost = 0 → zeroSummary.roas = 0) :=
  C4_zero_denominators dfNoCols zeroSummary (by decide)

/-- C2: with display currency VND, the explicit thousands flag unset and a
cost column present in a non-empty table, the heuristic fires if and only if
the maximum cost is below 10000 and the mean average CPC is absent, 0 or
below 50; when it fires every cost and every conversion_value figure is
multiplied by 1000, and the avg_cpc column is never changed. -/
theorem C2_vnd_heuristic (df : AdsDF) (hne : df.rows ≠ []) (hc : df.hasCost = true) :
    (vndScaleCond df = true ↔
      (maxCost df < 10000 ∧
        (df.hasAvgCpc = false ∨ meanCpc df = 0 ∨ meanCpc df < 50))) ∧
    ((applyVndHeuristic "VND" false df).rows.map (·.cost) =
      if vndScaleCond df = true then df.rows.map (fun r => r.cost * 1000)
      else df.rows.map (·.cost)) ∧
    (df.hasConversionValue = true →
      (applyVndHeuristic "VND" false df).rows.map (·.conversion_value) =
        if vndScaleCond df = true then df.rows.map (fun r => r.conversion_value * 1000)
        else df.rows.map (·.conversion_value)) ∧
    ((applyVndHeuristic "VND" false df).rows.map (·.avg_cpc) =
      df.rows.map (·.avg_cpc)) := by
  have hguard : ("VND" == "VND" && df.hasCost && !false) = true := by
    simp [hc]
  refine ⟨?_, ?_, fun hcv => ?_, ?_⟩
  · unfold vndScaleCond
    rw [List.isEmpty_eq_false.mpr hne]
    simp only [Bool.false_eq_true, if_false, Bool.and_eq_true, Bool.or_eq_true,
      decide_eq_true_iff]
    constructor
    · rintro ⟨h1, h2⟩
      exact ⟨h1, Or.inr h2⟩
    · rintro ⟨h1, h2⟩
      refine ⟨h1, ?_⟩
      rcases h2 with h2 | h2 | h2
      · left
        unfold meanCpc
        simp [h2]
      · exact Or.inl h2
      · exact Or.inr h2
  · unfold applyVndHeuristic
    rw [hguard]
    by_cases hcond : vndScaleCond df = true
    · simp [hcond, List.map_map, Function.comp]
    · simp [hcond]
  · unfold applyVndHeuristic
    rw [hguard]
    by_cases hcond : vndScaleCond df = true
    · simp [hcond, List.map_map, Function.comp, hcv]
    · simp [hcond]
  · unfold applyVndHeuristic
    rw [hguard]
    by_cases hcond : vndScaleCond df = true
    · simp [hcond, List.map_map, Function.comp]
    · simp [hcond]

/-- A one-row VND frame with cost and conversion_value columns present, cost
5 (below 10000) and no avg_cpc column. -/
def dfVnd : AdsDF :=
  { rows := [{ campaign := "A", impressions := 0, clicks := 0, cost := 5,
               conversions := 0, conversion_value := 7, avg_cpc := 0 }],
    hasImpressions := false, hasClicks := false, hasCost := true,
    hasConversions := false, hasConversionValue := true, hasAvgCpc := false }

/-- C2 witness: on dfVnd the heuristic condition is equivalent to the
claimed test. -/
theorem C2_witness :
    vndScaleCond dfVnd = true ↔
      (maxCost dfVnd < 10000 ∧
        (dfVnd.hasAvgCpc = false ∨ meanCpc dfVnd = 0 ∨ meanCpc dfVnd < 50)) :=
  (C2_vnd_heuristic dfVnd (by decide) rfl).1

/-- Membership in the deduplication of l relative to seen keys: exactly the
members of l not already seen. -/
theorem mem_firstDedupAux (x : String) (l : List String) :
    ∀ seen : List String, x ∈ firstDedupAux seen l ↔ x ∈ l ∧ x ∉ seen := by
  induction l with
  | nil => intro seen; simp [firstDedupAux]
  | cons k t ih =>
    intro seen
    by_cases hk : k ∈ seen
    · simp only [firstDedupAux]
      rw [if_pos hk, ih]
      constructor
      · rintro ⟨hx, hs⟩
        exact ⟨List.mem_cons_of_mem _ hx, hs⟩
      · rintro ⟨hx, hs⟩
        rcases List.mem_cons.mp hx with rfl | hx
        · exact absurd hk hs
        · exact ⟨hx, hs⟩
    · simp only [firstDedupAux]
      rw [if_neg hk]
      constructor
      · intro hx
        rcases List.mem_cons.mp hx with rfl | hx
        · exact ⟨List.mem_cons_self _ _, hk⟩
        · rcases (ih (k :: seen)).mp hx with ⟨hxt, hxs⟩
          simp only [List.mem_cons, not_or] at hxs
          exact ⟨List.mem_cons_of_mem _ hxt, hxs.2⟩
      · rintro ⟨hx, hs⟩
        rcases List.mem_cons.mp hx with rfl | hx
        · exact List.mem_cons_self _ _
        · by_cases hxk : x = k
          · subst hxk; exact List.mem_cons_self _ _
          · refine List.mem_cons_of_mem _ ((ih (k :: seen)).mpr ⟨hx, ?_⟩)
            simp only [List.mem_cons, not_or]
            exact ⟨hxk, hs⟩

/-- Membership is preserved by first-occurrence deduplication. -/
theorem mem_firstDedup (x : String) (l : List String) :
    x ∈ firstDedup l ↔ x ∈ l := by
  unfold firstDedup
  rw [mem_firstDedupAux]
  simp

/-- Deduplication relative to any seen set is duplicate-free. -/
theorem firstDedupAux_nodup (l : List String) :
    ∀ seen : List String, (firstDedupAux seen l).Nodup := by
  induction l with
  | nil => intro seen; simp [firstDedupAux]
  | cons k t ih =>
    intro seen
    by_cases hk : k ∈ seen
    · simp only [firstDedupAux]
      rw [if_pos hk]
      exact ih seen
    · simp only [firstDedupAux]
      rw [if_neg hk]
      refine List.nodup_cons.mpr ⟨?_, ih (k :: seen)⟩
      intro hmem
      rcases (mem_firstDedupAux k t (k :: seen)).mp hmem with ⟨_, hs⟩
      exact hs (List.mem_cons_self _ _)

/-- First-occurrence deduplication yields a duplicate-free list. -/
theorem firstDedup_nodup (l : List String) : (firstDedup l).Nodup :=
  firstDedupAux_nodup l []

/-- On a duplicate-free list disjoint from the seen set, deduplication is
the identity. -/
theorem firstDedupAux_eq_self (l : List String) :
    ∀ seen : List String, l.Nodup → (∀ x ∈ l, x ∉ seen) → firstDedupAux seen l = l := by
  induction l with
  | nil => intro seen _ _; rfl
  | cons k t ih =>
    intro seen h hd
    rcases List.nodup_cons.mp h with ⟨hk, ht⟩
    have hks : k ∉ seen := hd k (List.mem_cons_self _ _)
    simp only [firstDedupAux]
    rw [if_neg hks]
    congr 1
    apply ih _ ht
    intro x hx
    simp only [List.mem_cons, not_or]
    exact ⟨fun hxk => hk (hxk ▸ hx), hd x (List.mem_cons_of_mem _ hx)⟩

/-- On a duplicate-free list, first-occurrence deduplication is the
identity. -/
theorem firstDedup_eq_self (l : List String) (h : l.Nodup) : firstDedup l = l :=
  firstDedupAux_eq_self l [] h (by simp)

/-- The keys of a Python dict are the first occurrences of the pairs'
keys. -/
theorem pyDict_keys (ps : List (String × String)) :
    (pyDict ps).map Prod.fst = firstDedup (ps.map Prod.fst) := by
  unfold pyDict
  rw [List.map_map]
  exact List.map_id _

/-- Folding the dict updates over pairs none of which carry key k leaves the
accumulator unchanged. -/
theorem lastVal_foldl_no_key (ps : List (String × String)) (k : String) (acc : String)
    (h : k ∉ ps.map Prod.fst) :
    ps.foldl (fun acc p => if p.1 == k then p.2 else acc) acc = acc := by
  induction ps generalizing acc with
  | nil => rfl
  | cons p t ih =>
    simp only [List.map_cons, List.mem_cons] at h
    push_neg at h
    rw [List.foldl_cons, if_neg (by simp [beq_iff_eq]; exact fun hpk => h.1 hpk.symm)]
    exact ih acc h.2

/-- A dict whose later pairs never rebind k holds the head pair's value at
its own key. -/
theorem lastVal_cons_self (k v : String) (t : List (String × String))
    (h : k ∉ t.map Prod.fst) : lastVal ((k, v) :: t) k = v := by
  unfold lastVal
  rw [List.foldl_cons]
  simp only [beq_self_eq_true, if_true]
  exact lastVal_foldl_no_key t k v h

/-- Looking a dict up at a key different from the head pair's key skips the
head pair. -/
theorem lastVal_cons_ne (p : String × String) (t : List (String × String)) (k : String)
    (h : p.1 ≠ k) : lastVal (p :: t) k = lastVal t k := by
  unfold lastVal
  rw [List.foldl_cons, if_neg (by simpa [beq_iff_eq] using h)]

/-- A Python dict built from pairs with duplicate-free keys is those very
pairs. -/
theorem pyDict_of_nodup_keys (ps : List (String × String))
    (h : (ps.map Prod.fst).Nodup) : pyDict ps = ps := by
  unfold pyDict
  rw [firstDedup_eq_self _ h]
  induction ps with
  | nil => rfl
  | cons p t ih =>
    rcases p with ⟨k, v⟩
    simp only [List.map_cons] at h ⊢
    rcases List.nodup_cons.mp h with ⟨hk, ht⟩
    congr 1
    · rw [lastVal_cons_self k v t hk]
    · have hcong : ∀ a ∈ List.map Prod.fst t,
          (a, lastVal ((k, v) :: t) a) = (a, lastVal t a) := by
        intro a ha
        rcases List.mem_map.mp ha with ⟨q, hq, rfl⟩
        have hne : (k, v).1 ≠ q.1 := by
          intro hkq
          have hkq' : k = q.1 := hkq
          exact hk (by rw [hkq']; exact List.mem_map_of_mem Prod.fst hq)
        rw [lastVal_cons_ne (k, v) t q.1 hne]
      rw [List.map_congr_left hcong, ih ht]

/-- The padded data row is at least as long as the header list. -/
theorem padded_length_ge (headers row : List String) :
    headers.length ≤ (row ++ List.replicate (headers.length - row.length) "").length := by
  simp only [List.length_append, List.length_replicate]
  omega

/-- C5: the claim that every record has exactly as many fields as header
columns fails: headers "Impr." and "Impressions" are distinct (so the row is
accepted as header), yet both alias to "impressions", and the Python dict
collapses them, producing a one-field record under 2 header columns, with
the later column's value winning. -/
theorem C5_counterexample :
    sheetRecords [["Impr.", "Impressions"], ["1", "2"]] = [[("impressions", "2")]] ∧
    (makeHeaders ["Impr.", "Impressions"]).length = 2 ∧
    ([("impressions", "2")] : List (String × String)).length ≠ 2 := by
  refine ⟨by decide, by decide, by decide⟩

/-- C5 amended: every non-blank row strictly after the header becomes
exactly one record, in order; each record's fields are the distinct header
names in first-occurrence order (duplicate canonical names collapse, the
last column's value winning), so a record has exactly as many fields as
there are distinct header names; when the header names are pairwise
distinct, each record is exactly the header list zipped with the row
right-padded with empty strings (zip truncating a longer row), so it has
exactly as many fields as header columns. -/
theorem C5_amended (headers : List String) (rows : List (List String)) :
    buildRecords headers rows =
      (rows.filter (fun r => !(blankRow r))).map (mkRecord headers) ∧
    (∀ rec ∈ buildRecords headers rows,
      rec.map Prod.fst = firstDedup headers ∧
      rec.length = (firstDedup headers).length) ∧
    (headers.Nodup → ∀ row : List String,
      mkRecord headers row =
        headers.zip (row ++ List.replicate (headers.length - row.length) "") ∧
      (mkRecord headers row).length = headers.length) := by
  have hkeys : ∀ row : List String,
      (headers.zip (row ++ List.replicate (headers.length - row.length) "")).map
        Prod.fst = headers :=
    fun row => List.map_fst_zip _ _ (padded_length_ge headers row)
  refine ⟨rfl, ?_, ?_⟩
  · intro rec hrec
    rcases List.mem_map.mp hrec with ⟨row, _, rfl⟩
    have h1 : (mkRecord headers row).map Prod.fst = firstDedup headers := by
      unfold mkRecord
      rw [pyDict_keys, hkeys row]
    refine ⟨h1, ?_⟩
    calc (mkRecord headers row).length
        = ((mkRecord headers row).map Prod.fst).length := (List.length_map _ _).symm
      _ = (firstDedup headers).length := by rw [h1]
  · intro hnd row
    have heq : mkRecord headers row =
        headers.zip (row ++ List.replicate (headers.length - row.length) "") := by
      unfold mkRecord
      apply pyDict_of_nodup_keys
      rw [hkeys row]
      exact hnd
    refine ⟨heq, ?_⟩
    rw [heq, List.length_zip]
    exact Nat.min_eq_left (padded_length_ge headers row)

/-- Summing a one-hot indicator over a duplicate-free key list containing
the hot key gives the indicated value. -/
theorem sum_map_indicator (a : String) (c : ℚ) (keys : List String) :
    keys.Nodup → a ∈ keys →
      (keys.map (fun k => if k = a then c else 0)).sum = c := by
  induction keys with
  | nil => intro _ h; cases h
  | cons k t ih =>
    intro hnd hmem
    rcases List.nodup_cons.mp hnd with ⟨hk, ht⟩
    rw [List.map_cons, List.sum_cons]
    rcases List.mem_cons.mp hmem with hak | hmem
    · rw [if_pos hak.symm]
      have hrest : (t.map (fun x => if x = a then c else 0)).sum = 0 := by
        apply List.sum_eq_zero
        intro q hq
        rcases List.mem_map.mp hq with ⟨y, hy, rfl⟩
        have hya : y ≠ a := by
          intro hya
          apply hk
          rw [← hak, ← hya]
          exact hy
        rw [if_neg hya]
      rw [hrest, add_zero]
    · have hka : k ≠ a := by
        intro hka
        apply hk
        rw [hka]
        exact hmem
      rw [if_neg hka, ih ht hmem, zero_add]

/-- Summing a numeric field fiber-by-fiber over a duplicate-free cover of
the grouping keys equals summing it over all rows. -/
theorem sum_fibers (f : AdsRow → ℚ) (rows : List AdsRow) :
    ∀ keys : List String, keys.Nodup → (∀ r ∈ rows, r.campaign ∈ keys) →
      (keys.map (fun k =>
        ((rows.filter (fun r => r.campaign == k)).map f).sum)).sum
        = (rows.map f).sum := by
  induction rows with
  | nil =>
    intro keys _ _
    simp
  | cons r t ih =>
    intro keys hnd hcov
    have hmem : r.campaign ∈ keys := hcov r (List.mem_cons_self _ _)
    have hstep : ∀ k ∈ keys,
        (fun k => ((List.filter (fun x => x.campaign == k) (r :: t)).map f).sum) k
          = (fun k => (if k = r.campaign then f r else 0) +
              ((t.filter (fun x => x.campaign == k)).map f).sum) k := by
      intro k _
      dsimp only
      rw [List.filter_cons]
      by_cases hk : r.campaign = k
      · rw [if_pos (by simpa [beq_iff_eq] using hk), List.map_cons, List.sum_cons,
          if_pos hk.symm]
      · rw [if_neg (by simpa [beq_iff_eq] using hk),
          if_neg (fun hkr => hk hkr.symm), zero_add]
    rw [List.map_congr_left hstep, List.sum_map_add,
      sum_map_indicator r.campaign (f r) keys hnd hmem,
      ih keys hnd (fun x hx => hcov x (List.mem_cons_of_mem _ hx)),
      List.map_cons, List.sum_cons]

/-- Inserting into the ascending sort permutes consing. -/
theorem insertStr_perm (x : String) (l : List String) :
    List.Perm (insertStr x l) (x :: l) := by
  induction l with
  | nil => exact List.Perm.refl _
  | cons h t ih =>
    rw [insertStr]
    by_cases hlt : strLt x h = true
    · rw [if_pos hlt]
    · rw [if_neg hlt]
      exact (List.Perm.cons h ih).trans (List.Perm.swap x h t)

/-- The ascending key sort is a permutation. -/
theorem sortStrAsc_perm (l : List String) : List.Perm (sortStrAsc l) l := by
  induction l with
  | nil => exact List.Perm.refl _
  | cons x t ih =>
    rw [sortStrAsc]
    exact (insertStr_perm x (sortStrAsc t)).trans (List.Perm.cons x ih)

/-- One numeric column of safe_group_sum sums over groups to the overall
column total, for any projection reading that column of a group row. -/
theorem safe_group_sum_field (df : AdsDF) (flag : Bool) (f : AdsRow → ℚ)
    (proj : GroupRow → ℚ)
    (hproj : ∀ k, proj (groupTotals df k) =
      if flag = true then ((fiber df k).map f).sum else 0)
    (hzero : ∀ k, proj (GroupRow.mk k 0 0 0 0 0) = 0)
    (hflagnum : flag = true → hasAnyNumeric df = true) :
    ((safe_group_sum df).map proj).sum = colSum df flag f := by
  unfold safe_group_sum colSum
  by_cases hnum : hasAnyNumeric df = true
  · rw [if_pos hnum, List.map_map]
    by_cases hflag : flag = true
    · rw [if_pos hflag]
      have hnd : (sortStrAsc (firstDedup (df.rows.map (·.campaign)))).Nodup :=
        ((sortStrAsc_perm _).nodup_iff).mpr (firstDedup_nodup _)
      have hcov : ∀ r ∈ df.rows,
          r.campaign ∈ sortStrAsc (firstDedup (df.rows.map (·.campaign))) := by
        intro r hr
        exact ((sortStrAsc_perm _).mem_iff).mpr
          ((mem_firstDedup _ _).mpr (List.mem_map_of_mem _ hr))
      have hcong : ∀ k ∈ sortStrAsc (firstDedup (df.rows.map (·.campaign))),
          (proj ∘ groupTotals df) k
            = (fun k =>
                ((df.rows.filter (fun r => r.campaign == k)).map f).sum) k := by
        intro k _
        rw [Function.comp_apply, hproj k, if_pos hflag]
        rfl
      rw [List.map_congr_left hcong]
      exact sum_fibers f df.rows _ hnd hcov
    · rw [if_neg hflag]
      apply List.sum_eq_zero
      intro q hq
      rcases List.mem_map.mp hq with ⟨k, _, rfl⟩
      rw [Function.comp_apply, hproj k, if_neg hflag]
  · rw [if_neg hnum, List.map_map]
    have hflag : flag = false := by
      rcases Bool.eq_false_or_eq_true flag with hf | hf
      · exact absurd (hflagnum hf) hnum
      · exact hf
    rw [hflag]
    simp only [Bool.false_eq_true, if_false]
    apply List.sum_eq_zero
    intro q hq
    rcases List.mem_map.mp hq with ⟨k, _, rfl⟩
    exact hzero k

/-- C6: for every frame the analyzer accepts, summing each per-group total
of the grouped aggregation over all groups equals the corresponding total
of the overall ungrouped aggregation, for impressions, clicks, cost,
conversions and conversion_value. -/
theorem C6_roundtrip (df : AdsDF) (s : MetricsSummary)
    (h : analyze_ads_performance df = some s) :
    ((safe_group_sum df).map (·.impressions)).sum = s.total_impressions ∧
    ((safe_group_sum df).map (·.clicks)).sum = s.total_clicks ∧
    ((safe_group_sum df).map (·.cost)).sum = s.total_cost ∧
    ((safe_group_sum df).map (·.conversions)).sum = s.total_conversions ∧
    ((safe_group_sum df).map (·.conversion_value)).sum
      = s.total_conversion_value := by
  unfold analyze_ads_performance at h
  by_cases he : df.rows.isEmpty
  · simp [he] at h
  · simp only [he, Bool.false_eq_true, if_false, Option.some.injEq] at h
    subst h
    refine ⟨?_, ?_, ?_, ?_, ?_⟩ <;> dsimp only
    · exact safe_group_sum_field df df.hasImpressions (·.impressions) (·.impressions)
        (fun k => rfl) (fun k => rfl)
        (fun hf => by unfold hasAnyNumeric; rw [hf]; simp)
    · exact safe_group_sum_field df df.hasClicks (·.clicks) (·.clicks)
        (fun k => rfl) (fun k => rfl)
        (fun hf => by unfold hasAnyNumeric; rw [hf]; simp)
    · exact safe_group_sum_field df df.hasCost (·.cost) (·.cost)
        (fun k => rfl) (fun k => rfl)
        (fun hf => by unfold hasAnyNumeric; rw [hf]; simp)
    · exact safe_group_sum_field df df.hasConversions (·.conversions) (·.conversions)
        (fun k => rfl) (fun k => rfl)
        (fun hf => by unfold hasAnyNumeric; rw [hf]; simp)
    · exact safe_group_sum_field df df.hasConversionValue (·.conversion_value)
        (·.conversion_value) (fun k => rfl) (fun k => rfl)
        (fun hf => by unfold hasAnyNumeric; rw [hf]; simp)

/-- A one-row frame with every numeric column present. -/
def dfOneRow : AdsDF :=
  { rows := [{ campaign := "A", impressions := 1, clicks := 2, cost := 3,
               conversions := 4, conversion_value := 5, avg_cpc := 6 }],
    hasImpressions := true, hasClicks := true, hasCost := true,
    hasConversions := true, hasConversionValue := true, hasAvgCpc := true }

/-- The summary the analyzer computes for dfOneRow. -/
def oneRowSummary : MetricsSummary :=
  { total_impressions := 1, total_clicks := 2, total_cost := 3,
    total_conversions := 4, total_conversion_value := 5,
    ctr := 200, cpc := 3 / 2, cpm := 3000, conversion_rate := 200, roas := 5 / 3 }

/-- C6 witness: the round trip at the concrete one-row frame. -/
theorem C6_witness :
    ((safe_group_sum dfOneRow).map (·.impressions)).sum
        = oneRowSummary.total_impressions ∧
    ((safe_group_sum dfOneRow).map (·.clicks)).sum = oneRowSummary.total_clicks ∧
    ((safe_group_sum dfOneRow).map (·.cost)).sum = oneRowSummary.total_cost ∧
    ((safe_group_sum dfOneRow).map (·.conversions)).sum
        = oneRowSummary.total_conversions ∧
    ((safe_group_sum dfOneRow).map (·.conversion_value)).sum
        = oneRowSummary.total_conversion_value :=
  C6_roundtrip dfOneRow oneRowSummary
    (by norm_num [analyze_ads_performance, colSum, dfOneRow, oneRowSummary])

/-- Characters with equal code points are equal. -/
theorem char_eq_of_toNat_eq (a b : Char) (h : a.toNat = b.toNat) : a = b :=
  Char.eq_of_val_eq (UInt32.ext h)

/-- The code-point lexicographic comparison is transitive. -/
theorem charListLt_trans : ∀ a b c : List Char,
    charListLt a b = true → charListLt b c = true → charListLt a c = true := by
  intro a
  induction a with
  | nil =>
    intro b c hab hbc
    cases b with
    | nil => simp [charListLt] at hab
    | cons bh bs =>
      cases c with
      | nil => simp [charListLt] at hbc
      | cons ch cs => simp [charListLt]
  | cons ah as ih =>
    intro b c hab hbc
    cases b with
    | nil => simp [charListLt] at hab
    | cons bh bs =>
      cases c with
      | nil => simp [charListLt] at hbc
      | cons ch cs =>
        rw [charListLt] at hab hbc ⊢
        by_cases h1 : ah.toNat < bh.toNat
        · by_cases h3 : bh.toNat < ch.toNat
          · rw [if_pos (by omega)]
          · rw [if_neg h3] at hbc
            by_cases h4 : ch.toNat < bh.toNat
            · rw [if_pos h4] at hbc
              simp at hbc
            · rw [if_pos (by omega)]
        · rw [if_neg h1] at hab
          by_cases h2 : bh.toNat < ah.toNat
          · rw [if_pos h2] at hab
            simp at hab
          · rw [if_neg h2] at hab
            by_cases h3 : bh.toNat < ch.toNat
            · rw [if_pos (by omega)]
            · rw [if_neg h3] at hbc
              by_cases h4 : ch.toNat < bh.toNat
              · rw [if_pos h4] at hbc
                simp at hbc
              · rw [if_neg h4] at hbc
                rw [if_neg (by omega), if_neg (by omega)]
                exact ih bs cs hab hbc

/-- The code-point lexicographic comparison is total on distinct lists. -/
theorem charListLt_total : ∀ a b : List Char, a ≠ b →
    charListLt a b = true ∨ charListLt b a = true := by
  intro a
  induction a with
  | nil =>
    intro b hne
    cases b with
    | nil => exact absurd rfl hne
    | cons bh bs => left; simp [charListLt]
  | cons ah as ih =>
    intro b hne
    cases b with
    | nil => right; simp [charListLt]
    | cons bh bs =>
      by_cases h1 : ah.toNat < bh.toNat
      · left
        rw [charListLt, if_pos h1]
      · by_cases h2 : bh.toNat < ah.toNat
        · right
          rw [charListLt, if_pos h2]
        · have heq : ah = bh := char_eq_of_toNat_eq ah bh (by omega)
          have hne' : as ≠ bs := by
            intro hasbs
            exact hne (by rw [heq, hasbs])
          rcases ih bs hne' with hc | hc
          · left
            rw [charListLt, if_neg h1, if_neg h2]
            exact hc
          · right
            rw [charListLt, if_neg (heq ▸ h2), if_neg (heq ▸ h1)]
            exact hc

/-- Python string comparison is transitive. -/
theorem strLt_trans (a b c : String) :
    strLt a b = true → strLt b c = true → strLt a c = true :=
  charListLt_trans a.toList b.toList c.toList

/-- Python string comparison is total on distinct strings. -/
theorem strLt_total_ne (a b : String) (h : a ≠ b) :
    strLt a b = true ∨ strLt b a = true := by
  apply charListLt_total
  intro hd
  apply h
  cases a
  cases b
  simp_all [String.toList]

/-- Inserting into the descending-by-cost sort permutes consing. -/
theorem insertDescCost_perm (x : GroupRow) (l : List GroupRow) :
    List.Perm (insertDescCost x l) (x :: l) := by
  induction l with
  | nil => exact List.Perm.refl _
  | cons h t ih =>
    rw [insertDescCost]
    by_cases hc : h.cost ≤ x.cost
    · rw [if_pos hc]
    · rw [if_neg hc]
      exact (List.Perm.cons h ih).trans (List.Perm.swap x h t)

/-- The descending sort by cost is a permutation. -/
theorem sortDescCost_perm (l : List GroupRow) :
    List.Perm (sortDescCost l) l := by
  induction l with
  | nil => exact List.Perm.refl _
  | cons x t ih =>
    rw [sortDescCost]
    exact (insertDescCost_perm x (sortDescCost t)).trans (List.Perm.cons x ih)

/-- Inserting into a descending-by-cost list keeps it descending. -/
theorem insertDescCost_sorted (x : GroupRow) (l : List GroupRow)
    (h : l.Pairwise (fun a b => b.cost ≤ a.cost)) :
    (insertDescCost x l).Pairwise (fun a b => b.cost ≤ a.cost) := by
  induction l with
  | nil => simp [insertDescCost]
  | cons hd t ih =>
    rcases List.pairwise_cons.mp h with ⟨hhd, ht⟩
    rw [insertDescCost]
    by_cases hc : hd.cost ≤ x.cost
    · rw [if_pos hc]
      refine List.pairwise_cons.mpr ⟨?_, h⟩
      intro b hb
      rcases List.mem_cons.mp hb with rfl | hb
      · exact hc
      · exact le_trans (hhd b hb) hc
    · rw [if_neg hc]
      refine List.pairwise_cons.mpr ⟨?_, ih ht⟩
      intro b hb
      rcases List.mem_cons.mp ((insertDescCost_perm x t).mem_iff.mp hb) with rfl | hb
      · exact le_of_lt (not_le.mp hc)
      · exact hhd b hb

/-- The descending sort by cost is descending. -/
theorem sortDescCost_sorted (l : List GroupRow) :
    (sortDescCost l).Pairwise (fun a b => b.cost ≤ a.cost) := by
  induction l with
  | nil => simp [sortDescCost]
  | cons x t ih =>
    rw [sortDescCost]
    exact insertDescCost_sorted x (sortDescCost t) ih

/-- Inserting a row whose campaign precedes every listed campaign keeps the
combined strictness invariant: every earlier row has strictly larger cost,
or equal cost and strictly smaller campaign. -/
theorem insertDescCost_stable (x : GroupRow) (l : List GroupRow)
    (hT : l.Pairwise (fun a b => b.cost < a.cost ∨
      (a.cost = b.cost ∧ strLt a.campaign b.campaign = true)))
    (hx : ∀ y ∈ l, strLt x.campaign y.campaign = true) :
    (insertDescCost x l).Pairwise (fun a b => b.cost < a.cost ∨
      (a.cost = b.cost ∧ strLt a.campaign b.campaign = true)) := by
  induction l with
  | nil => simp [insertDescCost]
  | cons hd t ih =>
    rcases List.pairwise_cons.mp hT with ⟨hhd, ht⟩
    rw [insertDescCost]
    by_cases hc : hd.cost ≤ x.cost
    · rw [if_pos hc]
      refine List.pairwise_cons.mpr ⟨?_, hT⟩
      intro b hb
      by_cases hbc : b.cost < x.cost
      · exact Or.inl hbc
      · have hble : b.cost ≤ x.cost := by
          rcases List.mem_cons.mp hb with rfl | hb'
          · exact hc
          · rcases hhd b hb' with h1 | ⟨h1, _⟩
            · exact le_trans (le_of_lt h1) hc
            · exact le_trans (le_of_eq h1.symm) hc
        exact Or.inr ⟨(le_antisymm hble (not_lt.mp hbc)).symm, hx b hb⟩
    · rw [if_neg hc]
      refine List.pairwise_cons.mpr
        ⟨?_, ih ht (fun y hy => hx y (List.mem_cons_of_mem _ hy))⟩
      intro b hb
      rcases List.mem_cons.mp ((insertDescCost_perm x t).mem_iff.mp hb) with rfl | hb
      · exact Or.inl (not_le.mp hc)
      · exact hhd b hb

/-- The descending sort of a list whose campaigns are strictly ascending is
descending by cost with ties strictly ascending by campaign. -/
theorem sortDescCost_stable (l : List GroupRow)
    (hasc : l.Pairwise (fun a b => strLt a.campaign b.campaign = true)) :
    (sortDescCost l).Pairwise (fun a b => b.cost < a.cost ∨
      (a.cost = b.cost ∧ strLt a.campaign b.campaign = true)) := by
  induction l with
  | nil => simp [sortDescCost]
  | cons x t ih =>
    rcases List.pairwise_cons.mp hasc with ⟨hx, ht⟩
    rw [sortDescCost]
    apply insertDescCost_stable x (sortDescCost t) (ih ht)
    intro y hy
    exact hx y ((sortDescCost_perm t).mem_iff.mp hy)

/-- Inserting a fresh key into a strictly ascending key list keeps it
strictly ascending. -/
theorem insertStr_sorted (x : String) (l : List String)
    (hs : l.Pairwise (fun a b => strLt a b = true)) (hx : x ∉ l) :
    (insertStr x l).Pairwise (fun a b => strLt a b = true) := by
  induction l with
  | nil => simp [insertStr]
  | cons h t ih =>
    rcases List.pairwise_cons.mp hs with ⟨hh, ht⟩
    rw [insertStr]
    by_cases hlt : strLt x h = true
    · rw [if_pos hlt]
      refine List.pairwise_cons.mpr ⟨?_, hs⟩
      intro b hb
      rcases List.mem_cons.mp hb with rfl | hb
      · exact hlt
      · exact strLt_trans x h b hlt (hh b hb)
    · rw [if_neg hlt]
      have hxh : x ≠ h := by
        intro he
        apply hx
        rw [he]
        exact List.mem_cons_self _ _
      have hhx : strLt h x = true := by
        rcases strLt_total_ne x h hxh with hcase | hcase
        · exact absurd hcase hlt
        · exact hcase
      refine List.pairwise_cons.mpr
        ⟨?_, ih ht (fun hm => hx (List.mem_cons_of_mem _ hm))⟩
      intro b hb
      rcases List.mem_cons.mp ((insertStr_perm x t).mem_iff.mp hb) with rfl | hb
      · exact hhx
      · exact hh b hb

/-- Sorting a duplicate-free key list yields a strictly ascending list. -/
theorem sortStrAsc_sorted (l : List String) (h : l.Nodup) :
    (sortStrAsc l).Pairwise (fun a b => strLt a b = true) := by
  induction l with
  | nil => simp [sortStrAsc]
  | cons x t ih =>
    rcases List.nodup_cons.mp h with ⟨hx, ht⟩
    rw [sortStrAsc]
    exact insertStr_sorted x (sortStrAsc t) (ih ht)
      (fun hm => hx ((sortStrAsc_perm t).mem_iff.mp hm))

/-- When a numeric column is present, the grouped table comes out of pandas
groupby with campaigns strictly ascending. -/
theorem safe_group_sum_campaign_sorted (df : AdsDF) (h : hasAnyNumeric df = true) :
    (safe_group_sum df).Pairwise
      (fun a b => strLt a.campaign b.campaign = true) := by
  unfold safe_group_sum
  rw [if_pos h]
  apply List.Pairwise.map (groupTotals df) (fun a b hab => hab)
  exact sortStrAsc_sorted _ (firstDedup_nodup _)

/-- Two rows in input order campaign "B" then "A", equal costs, only the
cost column present. -/
def dfTie : AdsDF :=
  { rows := [{ campaign := "B", impressions := 0, clicks := 0, cost := 10,
               conversions := 0, conversion_value := 0, avg_cpc := 0 },
             { campaign := "A", impressions := 0, clicks := 0, cost := 10,
               conversions := 0, conversion_value := 0, avg_cpc := 0 }],
    hasImpressions := false, hasClicks := false, hasCost := true,
    hasConversions := false, hasConversionValue := false, hasAvgCpc := false }

/-- C7: ties are not broken by original input order. In dfTie the records
list campaign "B" before campaign "A" with equal costs, yet the top-2 view
returns "A" before "B", because groupby sorts the groups by key before
nlargest keeps first occurrences. -/
theorem C7_counterexample :
    (topCampaigns 2 dfTie).map (·.campaign) = ["A", "B"] ∧
    firstDedup (dfTie.rows.map (·.campaign)) = ["B", "A"] ∧
    (["A", "B"] : List String) ≠ ["B", "A"] := by
  refine ⟨?_, by decide, by decide⟩
  have hAB : ("A" == "B") = false := by decide
  have hBA : ("B" == "A") = false := by decide
  have hAA : ("A" == "A") = true := by decide
  have hBB : ("B" == "B") = true := by decide
  norm_num [topCampaigns, safe_group_sum, hasAnyNumeric, dfTie, firstDedup,
    firstDedupAux, sortStrAsc, insertStr, strLt, charListLt, groupTotals, fiber,
    sortDescCost, insertDescCost, List.filter, hAB, hBA, hAA, hBB]

/-- C7 amended: when a numeric column is present, the top-N view is the
n-prefix of a stable descending sort by cost of the grouped table: that sort
is a permutation of the grouped rows, descending by cost, and ties carry
strictly ascending campaign names (the grouped table's key order from
groupby), not the records' original input order. -/
theorem C7_amended (df : AdsDF) (n : ℕ) (h : hasAnyNumeric df = true) :
    topCampaigns n df = (sortDescCost (safe_group_sum df)).take n ∧
    List.Perm (sortDescCost (safe_group_sum df)) (safe_group_sum df) ∧
    (sortDescCost (safe_group_sum df)).Pairwise (fun a b => b.cost ≤ a.cost) ∧
    (sortDescCost (safe_group_sum df)).Pairwise
      (fun a b => b.cost < a.cost ∨
        (a.cost = b.cost ∧ strLt a.campaign b.campaign = true)) :=
  ⟨rfl, sortDescCost_perm _, sortDescCost_sorted _,
   sortDescCost_stable _ (safe_group_sum_campaign_sorted df h)⟩

/-- C7 witness: the amended statement instantiated at the tied two-campaign
frame. -/
theorem C7_witness :
    (sortDescCost (safe_group_sum dfTie)).Pairwise
      (fun a b => b.cost < a.cost ∨
        (a.cost = b.cost ∧ strLt a.campaign b.campaign = true)) :=
  (C7_amended dfTie 1 rfl).2.2.2
